import Mathlib

/-!
Shallow embedding of the riskcli metrics core (`src/riskcli/metrics.py`).

Price and return series are modelled as lists of rational values; a
timestamped series is a list of (timestamp, value) pairs.  The floating
"not-a-number" sentinel used by the source for undefined statistics is
modelled by `Option` (`none` = the "no value" marker).  Quantities whose
computation in the source needs square roots or real exponents
(`annualized_vol`, Sharpe, Sortino, the annualized return, skewness) are
valued in `ℝ`; everything else stays in `ℚ`, mirroring exact arithmetic
on the finite inputs.
-/

namespace RiskCli

/-- Trading periods per year, `TRADING_DAYS` in the source. -/
def TRADING_DAYS : ℕ := 252

/-- Ascending sort used by the quantile machinery (`numpy`/`pandas` sort). -/
def sortAsc (l : List ℚ) : List ℚ := l.insertionSort (· ≤ ·)

/-- Arithmetic mean of a list of rationals (`Series.mean`); `0` junk on `[]`. -/
def meanQ (l : List ℚ) : ℚ := l.sum / l.length

/-- Linear-interpolation quantile at `q ∈ [0,1]`: the method of
`pandas.Series.quantile` and `numpy.percentile` (with `p = 100*q`).
Sorted values `a_0 ≤ … ≤ a_{n-1}`, position `h = q*(n-1)`, result
`a_k + (h-k)*(a_{k+1} - a_k)` with `k = ⌊h⌋`. Empty input yields `0` junk
(the source would produce NaN; callers guard emptiness). -/
def quantileQ (l : List ℚ) (q : ℚ) : ℚ :=
  let s := sortAsc l
  if s.length = 0 then 0
  else
    let h : ℚ := q * ((s.length : ℚ) - 1)
    let k : ℕ := (⌊h⌋).toNat
    let frac : ℚ := h - (k : ℚ)
    let a := s.getD k 0
    let b := s.getD (k + 1) a
    a + frac * (b - a)

/-- Embedding of `tail_ratio(returns, p_high, p_low)`:
`high / |low|` when `|low| > 0`, else the "no value" marker. -/
def tail_ratio (returns : List ℚ) (p_high p_low : ℚ) : Option ℚ :=
  let high := quantileQ returns p_high
  let low := quantileQ returns p_low
  let denom := |low|
  if 0 < denom then some (high / denom) else none

/-- Embedding of `historical_var_cvar(returns, alpha)`: fewer than 100
observations yields two "no value" markers; otherwise VaR is the
`(1-alpha)` quantile and CVaR the mean of the returns `≤` VaR (VaR itself
if that set is empty). -/
def historical_var_cvar (returns : List ℚ) (alpha : ℚ) :
    Option ℚ × Option ℚ :=
  if returns.length < 100 then (none, none)
  else
    let var := quantileQ returns (1 - alpha)
    let tail := returns.filter (fun x => x ≤ var)
    let cvar := if 0 < tail.length then tail.sum / (tail.length : ℚ) else var
    (some var, some cvar)

/-- Cumulative products of `(1 + r_i)` starting from accumulator `acc`:
`(1 + s).cumprod()` in the source (with `acc = 1`). -/
def cumprod1p (acc : ℚ) : List ℚ → List ℚ
  | [] => []
  | x :: xs => (acc * (1 + x)) :: cumprod1p (acc * (1 + x)) xs

/-- Running maximum continuing from an already-seen maximum `m`. -/
def cummaxFrom (m : ℚ) : List ℚ → List ℚ
  | [] => []
  | x :: xs => (max m x) :: cummaxFrom (max m x) xs

/-- Running maximum of a list, `Series.cummax()` in the source. -/
def cummax : List ℚ → List ℚ
  | [] => []
  | x :: xs => x :: cummaxFrom x xs

/-- Drawdown sequence `(peak - wealth) / peak` from a wealth curve. -/
def drawdowns (wealth : List ℚ) : List ℚ :=
  List.zipWith (fun p w => (p - w) / p) (cummax wealth) wealth

/-- Maximum of a list (`Series.max()`), `0` junk on the empty list. -/
def listMax : List ℚ → ℚ
  | [] => 0
  | x :: xs => xs.foldl max x

/-- Wealth curve reconstruction of `max_drawdown`: the series is treated as
simple returns when the 95th percentile of absolute values is `≤ 1`
(cumulative compounding), else as price levels normalized by the first
value. -/
def wealthOf (s : List ℚ) : List ℚ :=
  if quantileQ (s.map (fun x => |x|)) (19/20) ≤ 1 then cumprod1p 1 s
  else s.map (fun x => x / s.headI)

/-- Embedding of `max_drawdown(series)`: positive-magnitude maximum
drawdown of the reconstructed wealth curve; `0` on empty input. -/
def max_drawdown (series : List ℚ) : ℚ :=
  if series = [] then 0
  else
    let m := listMax (drawdowns (wealthOf series))
    if 0 ≤ m then m else |m|

/-- A timestamped series: (timestamp, value) pairs, the model of a pandas
Series with its index. -/
abbrev TSeries := List (ℤ × ℚ)

/-- Embedding of `_daily_returns` / `pct_change().dropna()`: one simple
return `p_i / p_{i-1} - 1` per consecutive pair, carrying the later
timestamp. -/
def dailyReturns (prices : TSeries) : TSeries :=
  List.zipWith (fun p q => (q.1, q.2 / p.2 - 1)) prices prices.tail

/-- Inner join of two timestamped series on common timestamps, the model of
`pd.concat([asset, bench], axis=1).dropna()`: pairs `(asset value, bench
value)` for every timestamp present in both. -/
def alignRets (asset bench : TSeries) : List (ℚ × ℚ) :=
  asset.filterMap (fun p => (bench.lookup p.1).map (fun b => (p.2, b)))

/-- Benchmark column of the aligned frame (`df.iloc[:, 1]`). -/
def xsOf (df : List (ℚ × ℚ)) : List ℚ := df.map Prod.snd

/-- Asset column of the aligned frame (`df.iloc[:, 0]`). -/
def ysOf (df : List (ℚ × ℚ)) : List ℚ := df.map Prod.fst

/-- Centered sum of squares `Σ (v - mean)²` of a list of values. -/
def varSum (xs : List ℚ) : ℚ :=
  (xs.map (fun v => (v - meanQ xs) ^ 2)).sum

/-- Regression denominator `Σ (x - x̄)²` over the aligned benchmark column. -/
def regDenom (df : List (ℚ × ℚ)) : ℚ := varSum (xsOf df)

/-- Regression slope `Σ (x - x̄)(y - ȳ) / Σ (x - x̄)²`. -/
def regBeta (df : List (ℚ × ℚ)) : ℚ :=
  (List.zipWith (fun xv yv => (xv - meanQ (xsOf df)) * (yv - meanQ (ysOf df)))
    (xsOf df) (ysOf df)).sum / regDenom df

/-- Daily regression intercept `ȳ - beta·x̄`. -/
def regAlphaDaily (df : List (ℚ × ℚ)) : ℚ :=
  meanQ (ysOf df) - regBeta df * meanQ (xsOf df)

/-- Annualized alpha `(1 + alpha_daily)^252 - 1`. -/
def regAlphaAnnual (df : List (ℚ × ℚ)) : ℚ :=
  (1 + regAlphaDaily df) ^ TRADING_DAYS - 1

/-- Residual sum of squares `Σ (y - (alpha_daily + beta·x))²`. -/
def regSSRes (df : List (ℚ × ℚ)) : ℚ :=
  (List.zipWith (fun yv xv => (yv - (regAlphaDaily df + regBeta df * xv)) ^ 2)
    (ysOf df) (xsOf df)).sum

/-- Total sum of squares `Σ (y - ȳ)²`. -/
def regSSTot (df : List (ℚ × ℚ)) : ℚ := varSum (ysOf df)

/-- Embedding of `beta_alpha_r2(asset_rets, bench_rets)`: `none` benchmark,
empty benchmark, fewer than 2 aligned points, or zero regression
denominator give three "no value" markers; zero total sum of squares gives
a "no value" R² only. -/
def beta_alpha_r2 (asset : TSeries) (bench : Option TSeries) :
    Option ℚ × Option ℚ × Option ℚ :=
  match bench with
  | none => (none, none, none)
  | some b =>
    if b = [] then (none, none, none)
    else
      let df := alignRets asset b
      if df.length < 2 then (none, none, none)
      else if regDenom df = 0 then (none, none, none)
      else
        (some (regBeta df), some (regAlphaAnnual df),
          if regSSTot df ≠ 0 then some (1 - regSSRes df / regSSTot df)
          else none)

/-- Bessel-corrected sample variance, `Series.var(ddof=1)` (junk for lists
shorter than 2; callers guard that case). -/
def sampleVarQ (l : List ℚ) : ℚ :=
  ((l.map (fun x => (x - meanQ l) ^ 2)).sum) / ((l.length : ℚ) - 1)

/-- Central moment of order 2 (divisor `n`). -/
def m2Q (l : List ℚ) : ℚ :=
  ((l.map (fun x => (x - meanQ l) ^ 2)).sum) / (l.length : ℚ)

/-- Central moment of order 3 (divisor `n`). -/
def m3Q (l : List ℚ) : ℚ :=
  ((l.map (fun x => (x - meanQ l) ^ 3)).sum) / (l.length : ℚ)

/-- Central moment of order 4 (divisor `n`). -/
def m4Q (l : List ℚ) : ℚ :=
  ((l.map (fun x => (x - meanQ l) ^ 4)).sum) / (l.length : ℚ)

/-- Price values of the asset frame: the model of the adjusted/close price
column after `dropna()` (only valid observations are modelled). -/
def pricesOf (asset : TSeries) : List ℚ := asset.map Prod.snd

/-- Geometric annual return from first and last price over `n` price
points: `(P_last/P_first)^(252/n) - 1`, "no value" when `n < 2`. -/
noncomputable def annualReturnOf (prices : List ℚ) : Option ℝ :=
  if 2 ≤ prices.length then
    some ((((prices.getLastD 0) / prices.headI : ℚ) : ℝ) ^
      ((TRADING_DAYS : ℝ) / (prices.length : ℝ)) - 1)
  else none

/-- Embedding of `annualized_vol`: sample standard deviation (ddof 1) of
the returns scaled by `sqrt 252`; "no value" (NaN in the source) when
fewer than 2 returns exist. -/
noncomputable def annualVolOf (rets : List ℚ) : Option ℝ :=
  if rets.length < 2 then none
  else some (Real.sqrt ((sampleVarQ rets : ℚ) : ℝ) * Real.sqrt 252)

/-- Daily risk-free rate from the annual one: `(1+rf)^(1/252) - 1`. -/
noncomputable def rfDailyOf (rf : ℝ) : ℝ := (1 + rf) ^ ((1 : ℝ) / 252) - 1

/-- Arithmetic mean of a list of reals; `0` junk on `[]`. -/
noncomputable def meanR (l : List ℝ) : ℝ := l.sum / l.length

/-- Mean of the excess returns `mean(ar - rf_daily)`. -/
noncomputable def excessMean (rets : List ℚ) (rfd : ℝ) : ℝ :=
  meanR (rets.map (fun q : ℚ => (q : ℝ) - rfd))

open Classical in
/-- Sharpe ratio `(mean(excess)*252)/annual_vol`; "no value" when the
volatility is `0` or itself "no value" (NaN, which the source propagates). -/
noncomputable def sharpeOf (rets : List ℚ) (rfd : ℝ) : Option ℝ :=
  match annualVolOf rets with
  | none => none
  | some v => if v = 0 then none else some (excessMean rets rfd * 252 / v)

open Classical in
/-- Sortino ratio: annualized lower-partial standard deviation (population
variance of the shortfalls `min 0 (r - rf_daily)`) as denominator; "no
value" when that denominator is `0`. -/
noncomputable def sortinoOf (rets : List ℚ) (rfd : ℝ) : Option ℝ :=
  let lpsd :=
    Real.sqrt (meanR (rets.map (fun q : ℚ => (min 0 ((q : ℝ) - rfd)) ^ 2)))
  let downside := lpsd * Real.sqrt 252
  if downside = 0 then none
  else some (excessMean rets rfd * 252 / downside)

/-- Calmar ratio `annual_return / max_drawdown`; `None` when the drawdown
is `0`, and the NaN of an undefined annual return propagates (modelled by
`Option.map`). -/
noncomputable def calmarOf (ar : Option ℝ) (mdd : ℚ) : Option ℝ :=
  if 0 < mdd then ar.map (fun a => a / (mdd : ℝ)) else none

open Classical in
/-- Sample skewness, the `G1` estimator of `pandas.Series.skew`:
`sqrt(n(n-1))/(n-2) · m3/m2^{3/2}`; "no value" for fewer than 3
observations or zero variance. -/
noncomputable def skewOf (l : List ℚ) : Option ℝ :=
  if l.length < 3 ∨ m2Q l = 0 then none
  else
    some (Real.sqrt ((l.length : ℝ) * ((l.length : ℝ) - 1)) / ((l.length : ℝ) - 2) *
      (((m3Q l : ℚ) : ℝ) / Real.sqrt (((m2Q l : ℚ) : ℝ)) ^ 3))

/-- Sample excess kurtosis, the `G2` estimator of `pandas.Series.kurt`
(Fisher definition); "no value" for fewer than 4 observations or zero
variance. -/
def kurtOf (l : List ℚ) : Option ℚ :=
  if l.length < 4 ∨ m2Q l = 0 then none
  else
    let n : ℚ := l.length
    some (((n + 1) * (m4Q l / (m2Q l) ^ 2 - 3) + 6) * (n - 1) /
      ((n - 2) * (n - 3)))

/-- Liquidity proxy: mean of `price_i * volume_i` over timestamps carrying
both; `0` when no volume data exists or the product series is empty. -/
def avgDollarVolOf (asset : TSeries) (volume : Option TSeries) : ℚ :=
  match volume with
  | none => 0
  | some v =>
    if v = [] then 0
    else
      let pv := asset.filterMap (fun p => (v.lookup p.1).map (fun w => p.2 * w))
      if pv = [] then 0 else pv.sum / (pv.length : ℚ)

/-- The output record (`Metrics` dataclass); each optional field is either
a value or the "no value" marker. -/
structure Metrics where
  annual_return : Option ℝ
  annual_vol : Option ℝ
  sharpe : Option ℝ
  sortino : Option ℝ
  max_drawdown : ℚ
  calmar : Option ℝ
  var_95 : Option ℚ
  cvar_95 : Option ℚ
  tail_ratio : Option ℚ
  skew : Option ℝ
  excess_kurtosis : Option ℚ
  beta : Option ℚ
  alpha : Option ℚ
  r2 : Option ℚ
  avg_daily_dollar_vol : ℚ

/-- The single hard failure of the core: the asset return series cannot be
built (the spec's `InsufficientDataError`, a `ValueError` in the source). -/
inductive MetricsError where
  | insufficientData
deriving DecidableEq

/-- The record assembled by `compute_metrics` once the asset return series
exists. -/
noncomputable def metricsOf (asset : TSeries) (volume : Option TSeries)
    (bench : Option TSeries) (rf : ℝ) : Metrics :=
  let ar := dailyReturns asset
  let arv := ar.map Prod.snd
  let rfd := rfDailyOf rf
  let prices := pricesOf asset
  let anRet := annualReturnOf prices
  let mdd := max_drawdown prices
  let vc := historical_var_cvar arv (19/20)
  let reg := beta_alpha_r2 ar (bench.map dailyReturns)
  { annual_return := anRet
    annual_vol := annualVolOf arv
    sharpe := sharpeOf arv rfd
    sortino := sortinoOf arv rfd
    max_drawdown := mdd
    calmar := calmarOf anRet mdd
    var_95 := vc.1
    cvar_95 := vc.2
    tail_ratio := tail_ratio arv (19/20) (1/20)
    skew := skewOf arv
    excess_kurtosis := kurtOf arv
    beta := reg.1
    alpha := reg.2.1
    r2 := reg.2.2
    avg_daily_dollar_vol := avgDollarVolOf asset volume }

/-- Embedding of `compute_metrics(asset_df, bench_df, rf)`: raises (returns
`Except.error`) exactly when the asset return series is empty, else returns
the complete record. -/
noncomputable def compute_metrics (asset : TSeries) (volume : Option TSeries)
    (bench : Option TSeries) (rf : ℝ) : Except MetricsError Metrics :=
  if dailyReturns asset = [] then Except.error MetricsError.insufficientData
  else Except.ok (metricsOf asset volume bench rf)

/-! Helper lemmas. -/

lemma zipWith_self (f : ℚ → ℚ → ℚ) (l : List ℚ) :
    List.zipWith f l l = l.map (fun x => f x x) := by
  induction l with
  | nil => rfl
  | cons x xs ih => simp [List.zipWith, ih]

lemma foldl_max_eq {a : ℚ} {l : List ℚ} (h : ∀ x ∈ l, x ≤ a) :
    l.foldl max a = a := by
  induction l with
  | nil => rfl
  | cons x xs ih =>
    have hx : max a x = a := max_eq_left (h x (List.mem_cons_self x xs))
    simpa [hx] using ih (fun y hy => h y (List.mem_cons_of_mem x hy))

lemma listMax_of_all_zero {l : List ℚ} (h : ∀ x ∈ l, x = 0) (hne : l ≠ []) :
    listMax l = 0 := by
  match l, hne with
  | x :: xs, _ =>
    have hx : x = 0 := h x (List.mem_cons_self x xs)
    have : ∀ y ∈ xs, y ≤ x := fun y hy =>
      le_of_eq ((h y (List.mem_cons_of_mem x hy)).trans hx.symm)
    simpa [listMax, hx] using foldl_max_eq (hx ▸ this)

lemma cummaxFrom_of_chain {m : ℚ} {l : List ℚ}
    (h : List.Chain (· ≤ ·) m l) : cummaxFrom m l = l := by
  induction l generalizing m with
  | nil => rfl
  | cons x xs ih =>
    rcases List.chain_cons.mp h with ⟨hmx, hxs⟩
    simp [cummaxFrom, max_eq_right hmx, ih hxs]

lemma cummax_of_chain' {l : List ℚ} (h : l.Chain' (· ≤ ·)) : cummax l = l := by
  match l with
  | [] => rfl
  | x :: xs => simp [cummax, cummaxFrom_of_chain (h : List.Chain _ x xs)]

lemma drawdowns_of_chain' {w : List ℚ} (h : w.Chain' (· ≤ ·)) :
    drawdowns w = w.map (fun _ => 0) := by
  unfold drawdowns
  rw [cummax_of_chain' h, zipWith_self]
  simp

lemma cumprod1p_chain {s : List ℚ} (hs : ∀ x ∈ s, 0 < x) :
    ∀ {acc : ℚ}, 0 < acc → List.Chain (· ≤ ·) acc (cumprod1p acc s) := by
  induction s with
  | nil => intro acc _; exact List.Chain.nil
  | cons x xs ih =>
    intro acc hacc
    have hx : 0 < x := hs x (List.mem_cons_self x xs)
    have hstep : acc ≤ acc * (1 + x) := by nlinarith
    have hacc' : 0 < acc * (1 + x) := by nlinarith
    exact List.Chain.cons hstep
      (ih (fun y hy => hs y (List.mem_cons_of_mem x hy)) hacc')

lemma chain'_of_chain {a : ℚ} {l : List ℚ}
    (h : List.Chain (· ≤ ·) a l) : l.Chain' (· ≤ ·) := by
  match l with
  | [] => trivial
  | x :: xs => exact (List.chain_cons.mp h).2

lemma cumprod1p_ne_nil {acc : ℚ} {s : List ℚ} (h : s ≠ []) :
    cumprod1p acc s ≠ [] := by
  match s, h with
  | x :: xs, _ => simp [cumprod1p]

lemma wealthOf_chain' {s : List ℚ} (hchain : s.Chain' (· ≤ ·))
    (hpos : ∀ x ∈ s, 0 < x) : (wealthOf s).Chain' (· ≤ ·) := by
  unfold wealthOf
  split
  · exact chain'_of_chain (cumprod1p_chain hpos one_pos)
  · match s, hchain, hpos with
    | [], _, _ => simp
    | x :: xs, hchain, hpos =>
      have hx : 0 < x := hpos x (List.mem_cons_self x xs)
      rw [List.chain'_map]
      refine hchain.imp (fun a b hab => ?_)
      simpa [List.headI] using (div_le_div_iff_of_pos_right hx).mpr hab

lemma max_drawdown_nonneg (s : List ℚ) : 0 ≤ max_drawdown s := by
  unfold max_drawdown
  split
  · exact le_refl 0
  · dsimp only
    split
    · assumption
    · exact abs_nonneg _

lemma max_drawdown_of_monotone_pos {s : List ℚ} (hchain : s.Chain' (· ≤ ·))
    (hpos : ∀ x ∈ s, 0 < x) : max_drawdown s = 0 := by
  unfold max_drawdown
  split
  · rfl
  · rename_i hne
    have hw : (wealthOf s).Chain' (· ≤ ·) := wealthOf_chain' hchain hpos
    have hwne : wealthOf s ≠ [] := by
      unfold wealthOf
      split
      · exact cumprod1p_ne_nil hne
      · simpa using hne
    have hdd : drawdowns (wealthOf s) = (wealthOf s).map (fun _ => 0) :=
      drawdowns_of_chain' hw
    have hzero : listMax (drawdowns (wealthOf s)) = 0 := by
      apply listMax_of_all_zero
      · intro x hx
        rw [hdd] at hx
        rcases List.mem_map.mp hx with ⟨y, _, rfl⟩
        rfl
      · rw [hdd]
        simpa using hwne
    simp [hzero]

lemma dailyReturns_length (a : TSeries) :
    (dailyReturns a).length = a.length - 1 := by
  unfold dailyReturns
  rw [List.length_zipWith, List.length_tail]
  exact Nat.min_eq_right (Nat.sub_le _ _)

lemma dailyReturns_eq_nil_iff (a : TSeries) :
    dailyReturns a = [] ↔ a.length < 2 := by
  rw [← List.length_eq_zero, dailyReturns_length]
  omega

lemma compute_metrics_ok {a : TSeries} {v bench : Option TSeries} {rf : ℝ}
    (h : dailyReturns a ≠ []) :
    compute_metrics a v bench rf = Except.ok (metricsOf a v bench rf) := by
  simp [compute_metrics, h]

lemma compute_metrics_err {a : TSeries} {v bench : Option TSeries} {rf : ℝ}
    (h : dailyReturns a = []) :
    compute_metrics a v bench rf = Except.error MetricsError.insufficientData := by
  simp [compute_metrics, h]

lemma sortAsc_sorted (l : List ℚ) : (sortAsc l).Sorted (· ≤ ·) :=
  List.sorted_insertionSort _ l

lemma sortAsc_perm (l : List ℚ) : List.Perm (sortAsc l) l :=
  List.perm_insertionSort _ l

lemma head_le_quantileQ {l : List ℚ} (hne : l ≠ []) {q : ℚ} (hq0 : 0 ≤ q)
    (hq1 : q ≤ 1) : ∃ x ∈ l, x ≤ quantileQ l q := by
  have hperm := sortAsc_perm l
  have hsort := sortAsc_sorted l
  have hslen : (sortAsc l).length = l.length := hperm.length_eq
  have hlne : 0 < l.length := List.length_pos.mpr hne
  have hn : 0 < (sortAsc l).length := by omega
  simp only [quantileQ]
  rw [if_neg (by omega)]
  set s := sortAsc l with hs
  set n := s.length with hnn
  set h : ℚ := q * ((n : ℚ) - 1) with hh
  set k : ℕ := (⌊h⌋).toNat with hk
  have hn1 : (1 : ℚ) ≤ (n : ℚ) := by exact_mod_cast hn
  have h0 : 0 ≤ h := mul_nonneg hq0 (by linarith)
  have hfl0 : 0 ≤ ⌊h⌋ := Int.floor_nonneg.mpr h0
  have hkq : (k : ℚ) ≤ h := by
    rw [hk]
    calc ((⌊h⌋.toNat : ℤ) : ℚ) = ((⌊h⌋ : ℤ) : ℚ) := by
          rw [Int.toNat_of_nonneg hfl0]
      _ ≤ h := Int.floor_le h
  have hhle : h ≤ (n : ℚ) - 1 := by
    calc h = q * ((n : ℚ) - 1) := hh
      _ ≤ 1 * ((n : ℚ) - 1) := by
          apply mul_le_mul_of_nonneg_right hq1 (by linarith)
      _ = (n : ℚ) - 1 := one_mul _
  have hkn : k < n := by
    have : (⌊h⌋ : ℚ) ≤ ((n : ℤ) - 1 : ℤ) := by
      push_cast
      calc (⌊h⌋ : ℚ) ≤ h := Int.floor_le h
        _ ≤ (n : ℚ) - 1 := hhle
    have : ⌊h⌋ ≤ (n : ℤ) - 1 := by exact_mod_cast this
    omega
  have ha : s.getD k 0 = s.get ⟨k, hkn⟩ := by
    rw [List.getD_eq_getElem s 0 hkn]
    rfl
  have hhead_le : s.get ⟨0, hn⟩ ≤ s.get ⟨k, hkn⟩ :=
    hsort.rel_get_of_le (by exact Fin.mk_le_mk.mpr (Nat.zero_le k))
  have hab : s.getD k 0 ≤ s.getD (k + 1) (s.getD k 0) := by
    by_cases hk1 : k + 1 < n
    · rw [List.getD_eq_getElem s _ hk1, ha]
      exact hsort.rel_get_of_le (by exact Fin.mk_le_mk.mpr (Nat.le_succ k))
    · rw [List.getD_eq_default s (s.getD k 0)
        (show s.length ≤ k + 1 by omega)]
  refine ⟨s.get ⟨0, hn⟩, (hperm.mem_iff).mp (List.get_mem s 0 hn), ?_⟩
  have hfrac : 0 ≤ h - (k : ℚ) := by linarith
  calc s.get ⟨0, hn⟩ ≤ s.getD k 0 := by rw [ha]; exact hhead_le
    _ ≤ s.getD k 0 + (h - (k : ℚ)) *
        (s.getD (k + 1) (s.getD k 0) - s.getD k 0) :=
      le_add_of_nonneg_right (mul_nonneg hfrac (by linarith))

lemma meanQ_le_of_forall_le {l : List ℚ} (hne : l ≠ []) {c : ℚ}
    (h : ∀ x ∈ l, x ≤ c) : meanQ l ≤ c := by
  have hlen : 0 < (l.length : ℚ) := by
    have := List.length_pos.mpr hne
    exact_mod_cast this
  have hsum : l.sum ≤ (l.length : ℚ) * c := by
    have := List.sum_le_card_nsmul l c h
    simpa [nsmul_eq_mul] using this
  rw [meanQ, div_le_iff₀ hlen]
  linarith [hsum]

lemma historical_var_cvar_of_ge {returns : List ℚ}
    (h : 100 ≤ returns.length) :
    historical_var_cvar returns (19/20) =
      (some (quantileQ returns (1/20)),
        some
          (if 0 < (returns.filter (fun x => x ≤ quantileQ returns (1/20))).length
          then (returns.filter (fun x => x ≤ quantileQ returns (1/20))).sum /
            ((returns.filter (fun x => x ≤ quantileQ returns (1/20))).length : ℚ)
          else quantileQ returns (1/20))) := by
  have h120 : (1 : ℚ) - 19/20 = 1/20 := by norm_num
  simp only [historical_var_cvar, h120]
  rw [if_neg (by omega)]

/-! Claim theorems. -/

/-- C4: for every input series `max_drawdown` is non-negative; the empty
input yields exactly `0`; and a monotonically non-decreasing wealth/price
curve (non-decreasing positive values) yields exactly `0`. -/
theorem max_drawdown_sign_spec (s : List ℚ) :
    0 ≤ max_drawdown s ∧ max_drawdown ([] : List ℚ) = 0 ∧
      (s.Chain' (· ≤ ·) → (∀ x ∈ s, 0 < x) → max_drawdown s = 0) :=
  ⟨max_drawdown_nonneg s, rfl,
    fun hchain hpos => max_drawdown_of_monotone_pos hchain hpos⟩

unseal Rat.add Rat.mul Rat.inv Rat.sub in
/-- Witness for C4 at the concrete non-decreasing positive curve
`[1, 2, 3]`. -/
theorem max_drawdown_sign_spec_witness :
    List.Chain' (· ≤ ·) [(1 : ℚ), 2, 3] ∧ (∀ x ∈ [(1 : ℚ), 2, 3], 0 < x) ∧
      max_drawdown [(1 : ℚ), 2, 3] = 0 :=
  ⟨List.Chain.cons (by norm_num) (List.Chain.cons (by norm_num) List.Chain.nil),
    by decide,
    (max_drawdown_sign_spec [(1 : ℚ), 2, 3]).2.2
      (List.Chain.cons (by norm_num) (List.Chain.cons (by norm_num)
        List.Chain.nil))
      (by decide)⟩

unseal Rat.add Rat.mul Rat.inv Rat.sub in
/-- C5: the return series of prices `[100, 110, 90, 95, 120]` is
`[1/10, -2/11, 1/18, 5/19]`; `max_drawdown` classifies it as return-like
(95th percentile of absolute values `≤ 1`), reconstructs the wealth curve
`[11/10, 9/10, 19/20, 6/5]` by cumulative compounding, and returns
exactly `2/11` (≈ 0.1818). -/
theorem max_drawdown_scenarioA :
    dailyReturns [(0, 100), (1, 110), (2, 90), (3, 95), (4, 120)] =
        [(1, 1/10), (2, -(2/11)), (3, 1/18), (4, 5/19)] ∧
      quantileQ (([(1 : ℚ)/10, -(2/11), 1/18, 5/19]).map (fun x => |x|))
          (19/20) ≤ 1 ∧
      wealthOf [(1 : ℚ)/10, -(2/11), 1/18, 5/19] =
        cumprod1p 1 [(1 : ℚ)/10, -(2/11), 1/18, 5/19] ∧
      cumprod1p 1 [(1 : ℚ)/10, -(2/11), 1/18, 5/19] =
        [11/10, 9/10, 19/20, 6/5] ∧
      max_drawdown [(1 : ℚ)/10, -(2/11), 1/18, 5/19] = 2/11 := by
  refine ⟨by decide, by decide, ?_, by decide, by decide⟩
  unfold wealthOf
  rw [if_pos (by decide)]

/-- C2: `compute_metrics` fails exactly when the asset return series
cannot be built, which happens exactly when fewer than 2 price points
exist; the failure is the single `InsufficientDataError`-style error, and
otherwise a complete record is returned. -/
theorem compute_metrics_insufficient_iff (a : TSeries) (v bench : Option TSeries)
    (rf : ℝ) :
    (compute_metrics a v bench rf = Except.error MetricsError.insufficientData ↔
        a.length < 2) ∧
      (dailyReturns a = [] ↔ a.length < 2) ∧
      (2 ≤ a.length →
        compute_metrics a v bench rf = Except.ok (metricsOf a v bench rf)) := by
  refine ⟨?_, dailyReturns_eq_nil_iff a, ?_⟩
  · constructor
    · intro h
      by_contra hlen
      have hne : dailyReturns a ≠ [] := by
        rw [ne_eq, dailyReturns_eq_nil_iff]; exact hlen
      rw [compute_metrics_ok hne] at h
      exact Except.noConfusion h
    · intro hlen
      exact compute_metrics_err ((dailyReturns_eq_nil_iff a).mpr hlen)
  · intro hlen
    exact compute_metrics_ok
      (by rw [ne_eq, dailyReturns_eq_nil_iff]; omega)

/-- Witness for C2: one price point raises; two price points return a
complete record. -/
theorem compute_metrics_insufficient_iff_witness :
    compute_metrics [((0 : ℤ), (5 : ℚ))] none none 0 =
        Except.error MetricsError.insufficientData ∧
      compute_metrics [((0 : ℤ), (5 : ℚ)), (1, 6)] none none 0 =
        Except.ok (metricsOf [((0 : ℤ), (5 : ℚ)), (1, 6)] none none 0) :=
  ⟨(compute_metrics_insufficient_iff [((0 : ℤ), (5 : ℚ))] none none 0).1.mpr
      (by decide),
    (compute_metrics_insufficient_iff [((0 : ℤ), (5 : ℚ)), (1, 6)] none none
      0).2.2 (by decide)⟩

unseal Rat.add Rat.mul Rat.inv Rat.sub in
/-- C1 counterexample: on the all-negative return series
`[-1/50, -1/100]` the 95th-percentile quantile is `-21/2000 < 0`, so
`tail_ratio` returns the signed value `-7/13`, not the magnitude ratio
`|Q_high| / |Q_low| = 7/13` the claim states. -/
theorem tail_ratio_magnitude_counterexample :
    tail_ratio [-(1/50), -(1/100)] (19/20) (1/20) ≠
        some (|quantileQ [-(1/50), -(1/100)] (19/20)| /
          |quantileQ [-(1/50), -(1/100)] (1/20)|) ∧
      tail_ratio [-(1/50), -(1/100)] (19/20) (1/20) = some (-(7/13)) ∧
      |quantileQ [-(1/50), -(1/100)] (19/20)| /
          |quantileQ [-(1/50), -(1/100)] (1/20)| = 7/13 := by
  refine ⟨?_, ?_, ?_⟩ <;> decide

/-- C1 (amended): `tail_ratio(returns, 0.95, 0.05)` returns the signed
upper quantile divided by the magnitude of the lower quantile,
`Q_high / |Q_low|`; it is the "no value" marker exactly when the lower
quantile magnitude is zero. -/
theorem tail_ratio_signed_ratio (returns : List ℚ) :
    (|quantileQ returns (1/20)| = 0 →
        tail_ratio returns (19/20) (1/20) = none) ∧
      (|quantileQ returns (1/20)| ≠ 0 →
        tail_ratio returns (19/20) (1/20) =
          some (quantileQ returns (19/20) / |quantileQ returns (1/20)|)) := by
  constructor
  · intro h
    simp only [tail_ratio]
    rw [h]
    norm_num
  · intro h
    have hpos : 0 < |quantileQ returns (1/20)| :=
      lt_of_le_of_ne (abs_nonneg _) (Ne.symm h)
    simp only [tail_ratio]
    rw [if_pos hpos]

unseal Rat.add Rat.mul Rat.inv Rat.sub in
/-- Witness for C1 (amended) at the returns `[-1/50, 3/100]`. -/
theorem tail_ratio_signed_ratio_witness :
    |quantileQ [-(1/50), 3/100] (1/20)| ≠ 0 ∧
      tail_ratio [-(1/50), 3/100] (19/20) (1/20) =
        some (quantileQ [-(1/50), 3/100] (19/20) /
          |quantileQ [-(1/50), 3/100] (1/20)|) :=
  ⟨by decide, (tail_ratio_signed_ratio [-(1/50), 3/100]).2 (by decide)⟩

/-- C3: `historical_var_cvar(returns, 0.95)` yields two "no value"
markers exactly when fewer than 100 observations are given; with at least
100 observations VaR is the linear-interpolation quantile at `1 - 0.95 =
0.05` and CVaR the mean of all returns `≤` VaR, falling back to VaR if no
such returns exist. -/
theorem historical_var_cvar_threshold (returns : List ℚ) :
    (historical_var_cvar returns (19/20) = (none, none) ↔
        returns.length < 100) ∧
      (100 ≤ returns.length →
        historical_var_cvar returns (19/20) =
          (some (quantileQ returns (1/20)),
            some
              (if 0 <
                  (returns.filter
                    (fun x => x ≤ quantileQ returns (1/20))).length
              then meanQ (returns.filter
                  (fun x => x ≤ quantileQ returns (1/20)))
              else quantileQ returns (1/20)))) := by
  constructor
  · constructor
    · intro h
      by_contra hlen
      rw [historical_var_cvar_of_ge (by omega)] at h
      simp at h
    · intro hlen
      simp only [historical_var_cvar]
      rw [if_pos hlen]
  · intro hlen
    exact historical_var_cvar_of_ge hlen

unseal Rat.add Rat.mul Rat.inv Rat.sub in
/-- Witness for C3: the spec's example `[0.01, -0.02, 0.005]` (3
observations) yields two "no value" markers. -/
theorem historical_var_cvar_threshold_witness :
    ([(1 : ℚ)/100, -(1/50), 1/200].length < 100) ∧
      historical_var_cvar [(1 : ℚ)/100, -(1/50), 1/200] (19/20) =
        (none, none) :=
  ⟨by decide,
    (historical_var_cvar_threshold [(1 : ℚ)/100, -(1/50), 1/200]).1.mpr
      (by decide)⟩

/-- C9: with at least 100 observations the returned VaR/CVaR are numeric,
the tail set of returns `≤` VaR is never empty (the interpolated quantile
is at least the sample minimum), the CVaR is the tail mean (the fallback
branch is unreachable), and CVaR `≤` VaR. -/
theorem cvar_le_var_tail_nonempty (returns : List ℚ)
    (h : 100 ≤ returns.length) :
    (historical_var_cvar returns (19/20)).1 =
        some (quantileQ returns (1/20)) ∧
      (historical_var_cvar returns (19/20)).2 =
        some (meanQ (returns.filter (fun x => x ≤ quantileQ returns (1/20)))) ∧
      returns.filter (fun x => x ≤ quantileQ returns (1/20)) ≠ [] ∧
      meanQ (returns.filter (fun x => x ≤ quantileQ returns (1/20))) ≤
        quantileQ returns (1/20) := by
  have hne : returns ≠ [] := by
    intro hcon
    rw [hcon] at h
    simp at h
  obtain ⟨x, hxmem, hxle⟩ :=
    head_le_quantileQ hne (q := 1/20) (by norm_num) (by norm_num)
  have hmemf : x ∈ returns.filter (fun y => y ≤ quantileQ returns (1/20)) :=
    List.mem_filter.mpr ⟨hxmem, by simpa using hxle⟩
  have hfne : returns.filter (fun y => y ≤ quantileQ returns (1/20)) ≠ [] :=
    List.ne_nil_of_mem hmemf
  have hflen : 0 <
      (returns.filter (fun y => y ≤ quantileQ returns (1/20))).length :=
    List.length_pos.mpr hfne
  have hmean : meanQ (returns.filter (fun y => y ≤ quantileQ returns (1/20))) ≤
      quantileQ returns (1/20) := by
    apply meanQ_le_of_forall_le hfne
    intro y hy
    have := List.mem_filter.mp hy
    simpa using this.2
  refine ⟨?_, ?_, hfne, hmean⟩
  · rw [historical_var_cvar_of_ge h]
  · rw [historical_var_cvar_of_ge h]
    simp only [meanQ]
    rw [if_pos hflen]

unseal Rat.add Rat.mul Rat.inv Rat.sub in
/-- Witness for C9 at 100 zero returns. -/
theorem cvar_le_var_tail_nonempty_witness :
    (100 ≤ (List.replicate 100 (0 : ℚ)).length) ∧
      (historical_var_cvar (List.replicate 100 (0 : ℚ)) (19/20)).2 =
        some (meanQ ((List.replicate 100 (0 : ℚ)).filter
          (fun x => x ≤ quantileQ (List.replicate 100 (0 : ℚ)) (1/20)))) ∧
      meanQ ((List.replicate 100 (0 : ℚ)).filter
          (fun x => x ≤ quantileQ (List.replicate 100 (0 : ℚ)) (1/20))) ≤
        quantileQ (List.replicate 100 (0 : ℚ)) (1/20) :=
  ⟨by decide,
    (cvar_le_var_tail_nonempty (List.replicate 100 (0 : ℚ))
      (by decide)).2.1,
    (cvar_le_var_tail_nonempty (List.replicate 100 (0 : ℚ))
      (by decide)).2.2.2⟩

lemma alignRets_nil (asset : TSeries) : alignRets asset [] = [] := by
  unfold alignRets
  induction asset with
  | nil => rfl
  | cons p rest ih => simp [List.filterMap_cons, List.lookup, ih]

/-- C8: `beta_alpha_r2` returns three "no value" markers when no
benchmark is provided, when the benchmark series is empty, when fewer
than 2 aligned points remain after the inner join, or when the aligned
benchmark returns have zero variance (zero regression denominator); when
only `SS_tot` is zero, exactly R² is "no value" while beta and alpha are
numeric. -/
theorem beta_alpha_r2_degenerate (asset b : TSeries) :
    beta_alpha_r2 asset none = (none, none, none) ∧
      (b = [] → beta_alpha_r2 asset (some b) = (none, none, none)) ∧
      ((alignRets asset b).length < 2 →
        beta_alpha_r2 asset (some b) = (none, none, none)) ∧
      (regDenom (alignRets asset b) = 0 →
        beta_alpha_r2 asset (some b) = (none, none, none)) ∧
      (2 ≤ (alignRets asset b).length →
        regDenom (alignRets asset b) ≠ 0 →
        regSSTot (alignRets asset b) = 0 →
        beta_alpha_r2 asset (some b) =
          (some (regBeta (alignRets asset b)),
            some (regAlphaAnnual (alignRets asset b)), none)) := by
  refine ⟨rfl, ?_, ?_, ?_, ?_⟩
  · intro hb
    subst hb
    simp [beta_alpha_r2]
  · intro hlen
    by_cases hb : b = []
    · subst hb; simp [beta_alpha_r2]
    · simp only [beta_alpha_r2]
      rw [if_neg hb, if_pos hlen]
  · intro hden
    by_cases hb : b = []
    · subst hb; simp [beta_alpha_r2]
    · by_cases hlen : (alignRets asset b).length < 2
      · simp only [beta_alpha_r2]
        rw [if_neg hb, if_pos hlen]
      · simp only [beta_alpha_r2]
        rw [if_neg hb, if_neg hlen, if_pos hden]
  · intro hlen hden htot
    have hb : b ≠ [] := by
      intro hcon
      subst hcon
      rw [alignRets_nil] at hlen
      simp at hlen
    simp only [beta_alpha_r2]
    rw [if_neg hb, if_neg (by omega), if_neg hden]
    simp [htot]

unseal Rat.add Rat.mul Rat.inv Rat.sub in
/-- Witness for C8: constant asset returns against a varying benchmark
over two aligned points give numeric beta and alpha but "no value" R². -/
theorem beta_alpha_r2_degenerate_witness :
    (2 ≤ (alignRets [((0 : ℤ), (1 : ℚ)/100), (1, 1/100)]
        [((0 : ℤ), (1 : ℚ)/100), (1, 1/50)]).length) ∧
      (regDenom (alignRets [((0 : ℤ), (1 : ℚ)/100), (1, 1/100)]
        [((0 : ℤ), (1 : ℚ)/100), (1, 1/50)]) ≠ 0) ∧
      (regSSTot (alignRets [((0 : ℤ), (1 : ℚ)/100), (1, 1/100)]
        [((0 : ℤ), (1 : ℚ)/100), (1, 1/50)]) = 0) ∧
      beta_alpha_r2 [((0 : ℤ), (1 : ℚ)/100), (1, 1/100)]
          (some [((0 : ℤ), (1 : ℚ)/100), (1, 1/50)]) =
        (some (regBeta (alignRets [((0 : ℤ), (1 : ℚ)/100), (1, 1/100)]
            [((0 : ℤ), (1 : ℚ)/100), (1, 1/50)])),
          some (regAlphaAnnual (alignRets [((0 : ℤ), (1 : ℚ)/100), (1, 1/100)]
            [((0 : ℤ), (1 : ℚ)/100), (1, 1/50)])), none) :=
  ⟨by decide, by decide, by decide,
    (beta_alpha_r2_degenerate [((0 : ℤ), (1 : ℚ)/100), (1, 1/100)]
        [((0 : ℤ), (1 : ℚ)/100), (1, 1/50)]).2.2.2.2
      (by decide) (by decide) (by decide)⟩

lemma lookup_self {b : TSeries} (hnd : (b.map Prod.fst).Nodup) :
    ∀ p ∈ b, b.lookup p.1 = some p.2 := by
  induction b with
  | nil => intro p hp; simp at hp
  | cons q rest ih =>
    intro p hp
    rcases List.mem_cons.mp hp with rfl | hp'
    · simp [List.lookup]
    · rw [List.map_cons] at hnd
      have hnd' := List.nodup_cons.mp hnd
      have hne : (p.1 == q.1) = false := by
        apply beq_eq_false_iff_ne.mpr
        intro hcon
        exact hnd'.1 (List.mem_map.mpr ⟨p, hp', hcon⟩)
      rw [List.lookup, hne]
      exact ih hnd'.2 p hp'

lemma alignRets_scale {b : TSeries} (hnd : (b.map Prod.fst).Nodup) (k : ℚ) :
    alignRets (b.map (fun p => (p.1, k * p.2))) b =
      (b.map Prod.snd).map (fun v => (k * v, v)) := by
  have haux : ∀ l : TSeries, (∀ p ∈ l, b.lookup p.1 = some p.2) →
      alignRets (l.map (fun p => (p.1, k * p.2))) b =
        (l.map Prod.snd).map (fun v => (k * v, v)) := by
    intro l
    induction l with
    | nil => intro _; rfl
    | cons p rest ih =>
      intro hl
      have hp := hl p (List.mem_cons_self p rest)
      simp only [alignRets, List.map_cons, List.filterMap_cons, hp,
        Option.map_some']
      exact congrArg _ (ih (fun r hr => hl r (List.mem_cons_of_mem p hr)))
  exact haux b (lookup_self hnd)

lemma sum_map_mul (k : ℚ) (l : List ℚ) (f : ℚ → ℚ) :
    (l.map (fun v => k * f v)).sum = k * (l.map f).sum := by
  induction l with
  | nil => simp
  | cons x xs ih => simp [ih, mul_add]

lemma sum_map_zero (l : List ℚ) : (l.map (fun _ => (0 : ℚ))).sum = 0 := by
  induction l with
  | nil => rfl
  | cons x xs ih => simp [ih]

lemma xsOf_scaled (bs : List ℚ) (k : ℚ) :
    xsOf (bs.map (fun v => (k * v, v))) = bs := by
  simp [xsOf, List.map_map, Function.comp_def]

lemma ysOf_scaled (bs : List ℚ) (k : ℚ) :
    ysOf (bs.map (fun v => (k * v, v))) = bs.map (fun v => k * v) := by
  simp [ysOf, List.map_map, Function.comp_def]

lemma meanQ_mul (k : ℚ) (bs : List ℚ) :
    meanQ (bs.map (fun v => k * v)) = k * meanQ bs := by
  unfold meanQ
  have h1 : (bs.map (fun v => k * v)).sum = k * bs.sum := by
    simpa using sum_map_mul k bs (fun v => v)
  rw [h1, List.length_map, mul_div_assoc]

lemma regDenom_scaled (bs : List ℚ) (k : ℚ) :
    regDenom (bs.map (fun v => (k * v, v))) = varSum bs := by
  unfold regDenom
  rw [xsOf_scaled]

lemma regBeta_scaled {bs : List ℚ} {k : ℚ} (hvar : varSum bs ≠ 0) :
    regBeta (bs.map (fun v => (k * v, v))) = k := by
  unfold regBeta
  rw [xsOf_scaled, ysOf_scaled, meanQ_mul, regDenom_scaled,
    List.zipWith_map_right, zipWith_self]
  have hfun : (fun v : ℚ => (v - meanQ bs) * (k * v - k * meanQ bs)) =
      fun v : ℚ => k * ((v - meanQ bs) ^ 2) := by
    funext v
    ring
  rw [hfun, sum_map_mul]
  rw [show (bs.map (fun v => (v - meanQ bs) ^ 2)).sum = varSum bs from rfl]
  field_simp

lemma regAlphaDaily_scaled {bs : List ℚ} {k : ℚ} (hvar : varSum bs ≠ 0) :
    regAlphaDaily (bs.map (fun v => (k * v, v))) = 0 := by
  unfold regAlphaDaily
  rw [regBeta_scaled hvar, xsOf_scaled, ysOf_scaled, meanQ_mul]
  ring

lemma regSSRes_scaled {bs : List ℚ} {k : ℚ} (hvar : varSum bs ≠ 0) :
    regSSRes (bs.map (fun v => (k * v, v))) = 0 := by
  unfold regSSRes
  rw [regAlphaDaily_scaled hvar, regBeta_scaled hvar, xsOf_scaled,
    ysOf_scaled, List.zipWith_map_left, zipWith_self]
  have hfun : (fun v : ℚ => (k * v - (0 + k * v)) ^ 2) =
      fun _ : ℚ => (0 : ℚ) := by
    funext v
    ring
  rw [hfun, sum_map_zero]

lemma regSSTot_scaled (bs : List ℚ) (k : ℚ) :
    regSSTot (bs.map (fun v => (k * v, v))) = k ^ 2 * varSum bs := by
  unfold regSSTot varSum
  rw [ysOf_scaled, meanQ_mul, List.map_map]
  have hfun : ((fun v : ℚ => (v - k * meanQ bs) ^ 2) ∘ fun v : ℚ => k * v) =
      fun v : ℚ => k ^ 2 * ((v - meanQ bs) ^ 2) := by
    funext v
    simp [Function.comp]
    ring
  rw [hfun, sum_map_mul]

set_option maxRecDepth 10000 in
unseal Rat.add Rat.mul Rat.inv Rat.sub in
/-- C7 counterexample: with `k = 0` (a constant the claim quantifies
over), asset returns `0 × benchmark` over two aligned points with a
nonzero-variance benchmark yield R² = "no value", not 1; beta and alpha
are still 0. -/
theorem beta_r2_zero_k_counterexample :
    beta_alpha_r2 [((0 : ℤ), (0 : ℚ)), (1, 0)]
        (some [((0 : ℤ), (1 : ℚ)/100), (1, 1/50)]) =
      (some 0, some 0, none) ∧
      varSum ([((0 : ℤ), (1 : ℚ)/100), (1, 1/50)].map Prod.snd) ≠ 0 ∧
      ((some (0 : ℚ), some (0 : ℚ),
        (none : Option ℚ)).2.2 = some 1) = False := by
  refine ⟨?_, ?_, by simp⟩ <;> decide

/-- C7 (amended): for every benchmark return series with at least 2
points, distinct timestamps and nonzero variance, and every NONZERO
constant `k`, asset returns equal to `k ×` benchmark returns make
`beta_alpha_r2` recover beta = k, alpha = 0 and R² = 1 exactly; for
`k = 0` the total sum of squares vanishes and R² is "no value" instead.
The `k = 1` case of the claim (identical series) is the instance
beta = 1, alpha_annual = 0, r2 = 1. -/
theorem beta_recovers_scale (b : TSeries) (k : ℚ) (hk : k ≠ 0)
    (hnd : (b.map Prod.fst).Nodup) (hlen : 2 ≤ b.length)
    (hvar : varSum (b.map Prod.snd) ≠ 0) :
    beta_alpha_r2 (b.map (fun p => (p.1, k * p.2))) (some b) =
      (some k, some 0, some 1) := by
  have hbne : b ≠ [] := by
    intro hcon
    rw [hcon] at hlen
    simp at hlen
  have halign := alignRets_scale hnd k
  set bs := b.map Prod.snd with hbs
  have hbslen : bs.length = b.length := List.length_map _ _
  simp only [beta_alpha_r2]
  rw [if_neg hbne, halign]
  rw [if_neg (by
    rw [List.length_map]
    omega)]
  rw [if_neg (by
    rw [regDenom_scaled]
    exact hvar)]
  rw [regBeta_scaled hvar, regSSTot_scaled, regSSRes_scaled hvar]
  have htot : k ^ 2 * varSum bs ≠ 0 :=
    mul_ne_zero (pow_ne_zero 2 hk) hvar
  rw [if_pos htot]
  have halpha : regAlphaAnnual (bs.map (fun v => (k * v, v))) = 0 := by
    unfold regAlphaAnnual
    rw [regAlphaDaily_scaled hvar]
    simp
  rw [halpha]
  simp

unseal Rat.add Rat.mul Rat.inv Rat.sub in
/-- Witness for C7 (amended) at `k = 1` with benchmark returns
`[1/100, 1/50]` (the claim's identical-series scenario). -/
theorem beta_recovers_scale_witness :
    ((1 : ℚ) ≠ 0) ∧
      (([((0 : ℤ), (1 : ℚ)/100), (1, 1/50)].map Prod.fst).Nodup) ∧
      (2 ≤ ([((0 : ℤ), (1 : ℚ)/100), (1, 1/50)] : TSeries).length) ∧
      (varSum ([((0 : ℤ), (1 : ℚ)/100), (1, 1/50)].map Prod.snd) ≠ 0) ∧
      beta_alpha_r2
          (([((0 : ℤ), (1 : ℚ)/100), (1, 1/50)] : TSeries).map
            (fun p => (p.1, 1 * p.2)))
          (some [((0 : ℤ), (1 : ℚ)/100), (1, 1/50)]) =
        (some 1, some 0, some 1) :=
  ⟨by decide, by decide, by decide, by decide,
    beta_recovers_scale [((0 : ℤ), (1 : ℚ)/100), (1, 1/50)] 1
      (by decide) (by decide) (by decide) (by decide)⟩

lemma dailyReturns_const {c : ℚ} (hc : c ≠ 0) :
    ∀ (s : TSeries), (∀ p ∈ s, p.2 = c) → ∀ q ∈ dailyReturns s, q.2 = 0 := by
  intro s
  induction s with
  | nil => intro _ q hq; simp [dailyReturns] at hq
  | cons p rest ih =>
    intro hall q hq
    match rest, hq with
    | [], hq => simp [dailyReturns] at hq
    | r :: t, hq =>
      have hstep : dailyReturns (p :: r :: t) =
          (r.1, r.2 / p.2 - 1) :: dailyReturns (r :: t) := rfl
      rw [hstep] at hq
      rcases List.mem_cons.mp hq with rfl | hq'
      · have hp := hall p (List.mem_cons_self _ _)
        have hr := hall r (List.mem_cons_of_mem _ (List.mem_cons_self _ _))
        simp only [hp, hr]
        rw [div_self hc]
        ring
      · exact ih (fun x hx => hall x (List.mem_cons_of_mem _ hx)) q hq'

lemma headI_of_all_eq {l : List ℚ} {c : ℚ} (hne : l ≠ [])
    (h : ∀ x ∈ l, x = c) : l.headI = c := by
  match l, hne with
  | x :: xs, _ => exact h x (List.mem_cons_self _ _)

lemma getLastD_of_all_eq {l : List ℚ} {c : ℚ} (hne : l ≠ [])
    (h : ∀ x ∈ l, x = c) : l.getLastD 0 = c := by
  induction l with
  | nil => exact absurd rfl hne
  | cons x xs ih =>
    match xs, ih with
    | [], _ => exact h x (List.mem_cons_self _ _)
    | y :: t, ih =>
      have : (x :: y :: t).getLastD 0 = (y :: t).getLastD 0 := rfl
      rw [this]
      exact ih (by simp) (fun z hz => h z (List.mem_cons_of_mem _ hz))

lemma annualReturnOf_const {prices : List ℚ} {c : ℚ} (hc : c ≠ 0)
    (hlen : 2 ≤ prices.length) (h : ∀ x ∈ prices, x = c) :
    annualReturnOf prices = some 0 := by
  have hne : prices ≠ [] := by
    intro hcon; rw [hcon] at hlen; simp at hlen
  simp only [annualReturnOf]
  rw [if_pos hlen, getLastD_of_all_eq hne h, headI_of_all_eq hne h,
    div_self hc]
  norm_num [Real.one_rpow]

lemma meanQ_zeros {l : List ℚ} (h : ∀ x ∈ l, x = 0) : meanQ l = 0 := by
  rw [meanQ, List.sum_eq_zero h, zero_div]

lemma sampleVarQ_zeros {l : List ℚ} (h : ∀ x ∈ l, x = 0) :
    sampleVarQ l = 0 := by
  rw [sampleVarQ, meanQ_zeros h, List.sum_eq_zero, zero_div]
  intro x hx
  rcases List.mem_map.mp hx with ⟨y, hy, rfl⟩
  rw [h y hy]
  ring

lemma annualVolOf_zeros {l : List ℚ} (hlen : 2 ≤ l.length)
    (h : ∀ x ∈ l, x = 0) : annualVolOf l = some 0 := by
  simp only [annualVolOf]
  rw [if_neg (by omega), sampleVarQ_zeros h]
  norm_num

lemma sharpeOf_of_vol_zero {l : List ℚ} (h : annualVolOf l = some 0)
    (rfd : ℝ) : sharpeOf l rfd = none := by
  simp [sharpeOf, h]

lemma rfDailyOf_zero : rfDailyOf 0 = 0 := by
  rw [rfDailyOf, add_zero, Real.one_rpow, sub_self]

lemma sortinoOf_zeros {l : List ℚ} (h : ∀ x ∈ l, x = 0) :
    sortinoOf l 0 = none := by
  have hmap : l.map (fun q : ℚ => (min 0 ((q : ℝ) - 0)) ^ 2) =
      l.map (fun _ : ℚ => (0 : ℝ)) := by
    apply List.map_congr_left
    intro x hx
    rw [h x hx]
    norm_num
  have hsum : (l.map (fun _ : ℚ => (0 : ℝ))).sum = 0 :=
    List.sum_eq_zero (fun x hx => by
      rcases List.mem_map.mp hx with ⟨y, _, rfl⟩
      rfl)
  simp only [sortinoOf, meanR]
  rw [hmap, hsum, zero_div, Real.sqrt_zero, zero_mul, if_pos rfl]

lemma chain'_of_all_eq {l : List ℚ} {c : ℚ} (h : ∀ x ∈ l, x = c) :
    l.Chain' (· ≤ ·) := by
  induction l with
  | nil => trivial
  | cons x xs ih =>
    apply List.chain'_cons'.mpr
    constructor
    · intro y hy
      rw [h x (List.mem_cons_self _ _),
        h y (List.mem_cons_of_mem _ (List.mem_of_mem_head? hy))]
    · exact ih (fun z hz => h z (List.mem_cons_of_mem _ hz))

unseal Rat.add Rat.mul Rat.inv Rat.sub in
/-- C6 counterexample: the constant-price series `[5, 5]` (two points, one
zero return) gives `annual_vol` = "no value" (NaN from the `ddof=1`
sample deviation of a single observation), not `0` as the claim states
for every constant-price series. -/
theorem constant_two_points_counterexample :
    compute_metrics [((0 : ℤ), (5 : ℚ)), (1, 5)] none none 0 =
        Except.ok (metricsOf [((0 : ℤ), (5 : ℚ)), (1, 5)] none none 0) ∧
      (metricsOf [((0 : ℤ), (5 : ℚ)), (1, 5)] none none 0).annual_vol =
        none ∧
      ((metricsOf [((0 : ℤ), (5 : ℚ)), (1, 5)] none none 0).annual_vol =
          some 0) = False := by
  have harv : (dailyReturns [((0 : ℤ), (5 : ℚ)), (1, 5)]).map Prod.snd =
      [0] := by decide
  have hvol :
      (metricsOf [((0 : ℤ), (5 : ℚ)), (1, 5)] none none 0).annual_vol =
        none := by
    simp only [metricsOf]
    rw [harv]
    simp [annualVolOf]
  refine ⟨compute_metrics_ok (by decide), hvol, by simp [hvol]⟩

/-- C6 (amended): every constant-price series of at least 3 points (the
claim fails only at exactly 2 points, where `annual_vol` is NaN rather
than 0) with positive constant price, computed at the default risk-free
rate 0, yields annual_return = 0, annual_vol = 0 and Sharpe, Sortino,
Calmar all "no value". -/
theorem constant_series_metrics (s : TSeries) (c : ℚ)
    (vol bench : Option TSeries) (hc : 0 < c) (hconst : ∀ p ∈ s, p.2 = c)
    (hlen : 3 ≤ s.length) :
    compute_metrics s vol bench 0 = Except.ok (metricsOf s vol bench 0) ∧
      (metricsOf s vol bench 0).annual_return = some 0 ∧
      (metricsOf s vol bench 0).annual_vol = some 0 ∧
      (metricsOf s vol bench 0).sharpe = none ∧
      (metricsOf s vol bench 0).sortino = none ∧
      (metricsOf s vol bench 0).calmar = none := by
  have hc0 : c ≠ 0 := ne_of_gt hc
  have hret0 : ∀ q ∈ dailyReturns s, q.2 = 0 :=
    dailyReturns_const hc0 s hconst
  have harv0 : ∀ x ∈ (dailyReturns s).map Prod.snd, x = 0 := by
    intro x hx
    rcases List.mem_map.mp hx with ⟨q, hq, rfl⟩
    exact hret0 q hq
  have harvlen : 2 ≤ ((dailyReturns s).map Prod.snd).length := by
    rw [List.length_map, dailyReturns_length]
    omega
  have hprices0 : ∀ x ∈ pricesOf s, x = c := by
    intro x hx
    rcases List.mem_map.mp hx with ⟨p, hp, rfl⟩
    exact hconst p hp
  have hpriceslen : 2 ≤ (pricesOf s).length := by
    rw [pricesOf, List.length_map]
    omega
  have hvol : annualVolOf ((dailyReturns s).map Prod.snd) = some 0 :=
    annualVolOf_zeros harvlen harv0
  have hmdd : max_drawdown (pricesOf s) = 0 :=
    max_drawdown_of_monotone_pos (chain'_of_all_eq hprices0)
      (fun x hx => (hprices0 x hx) ▸ hc)
  refine ⟨compute_metrics_ok ?_, ?_, ?_, ?_, ?_, ?_⟩
  · rw [ne_eq, dailyReturns_eq_nil_iff]
    omega
  · simp only [metricsOf]
    exact annualReturnOf_const hc0 hpriceslen hprices0
  · simp only [metricsOf]
    exact hvol
  · simp only [metricsOf]
    exact sharpeOf_of_vol_zero hvol _
  · simp only [metricsOf]
    rw [rfDailyOf_zero]
    exact sortinoOf_zeros harv0
  · simp only [metricsOf]
    rw [hmdd]
    simp [calmarOf]

unseal Rat.add Rat.mul Rat.inv Rat.sub in
/-- Witness for C6 (amended) at the constant series `[5, 5, 5]`. -/
theorem constant_series_metrics_witness :
    ((0 : ℚ) < 5) ∧ (∀ p ∈ ([((0 : ℤ), (5 : ℚ)), (1, 5), (2, 5)] : TSeries),
        p.2 = 5) ∧
      (3 ≤ ([((0 : ℤ), (5 : ℚ)), (1, 5), (2, 5)] : TSeries).length) ∧
      (metricsOf [((0 : ℤ), (5 : ℚ)), (1, 5), (2, 5)] none none
          0).annual_return = some 0 ∧
      (metricsOf [((0 : ℤ), (5 : ℚ)), (1, 5), (2, 5)] none none
          0).annual_vol = some 0 ∧
      (metricsOf [((0 : ℤ), (5 : ℚ)), (1, 5), (2, 5)] none none
          0).sharpe = none ∧
      (metricsOf [((0 : ℤ), (5 : ℚ)), (1, 5), (2, 5)] none none
          0).sortino = none ∧
      (metricsOf [((0 : ℤ), (5 : ℚ)), (1, 5), (2, 5)] none none
          0).calmar = none :=
  ⟨by decide, by decide, by decide,
    (constant_series_metrics [((0 : ℤ), (5 : ℚ)), (1, 5), (2, 5)] 5 none none
      (by decide) (by decide) (by decide)).2.1,
    (constant_series_metrics [((0 : ℤ), (5 : ℚ)), (1, 5), (2, 5)] 5 none none
      (by decide) (by decide) (by decide)).2.2.1,
    (constant_series_metrics [((0 : ℤ), (5 : ℚ)), (1, 5), (2, 5)] 5 none none
      (by decide) (by decide) (by decide)).2.2.2.1,
    (constant_series_metrics [((0 : ℤ), (5 : ℚ)), (1, 5), (2, 5)] 5 none none
      (by decide) (by decide) (by decide)).2.2.2.2.1,
    (constant_series_metrics [((0 : ℤ), (5 : ℚ)), (1, 5), (2, 5)] 5 none none
      (by decide) (by decide) (by decide)).2.2.2.2.2⟩

/-- C10: with exactly 2 valid prices (one return), `compute_metrics` does
not raise: it returns a complete record whose `annual_vol` is the "no
value"/NaN marker (the `ddof=1` deviation is undefined for one
observation), whose Sharpe is likewise "no value", and whose
`annual_return` is still numeric. -/
theorem two_price_record (t0 t1 : ℤ) (p0 p1 : ℚ) (h0 : 0 < p0)
    (h1 : 0 < p1) (vol bench : Option TSeries) (rf : ℝ) :
    compute_metrics [(t0, p0), (t1, p1)] vol bench rf =
        Except.ok (metricsOf [(t0, p0), (t1, p1)] vol bench rf) ∧
      (metricsOf [(t0, p0), (t1, p1)] vol bench rf).annual_vol = none ∧
      (metricsOf [(t0, p0), (t1, p1)] vol bench rf).sharpe = none ∧
      (metricsOf [(t0, p0), (t1, p1)] vol bench rf).annual_return.isSome =
        true := by
  have hdr : dailyReturns [(t0, p0), (t1, p1)] = [(t1, p1 / p0 - 1)] := rfl
  have hvol :
      annualVolOf ((dailyReturns [(t0, p0), (t1, p1)]).map Prod.snd) =
        none := by
    rw [hdr]
    simp [annualVolOf]
  refine ⟨compute_metrics_ok (by rw [hdr]; simp), ?_, ?_, ?_⟩
  · simp only [metricsOf]
    exact hvol
  · simp only [metricsOf]
    simp [sharpeOf, hvol]
  · simp only [metricsOf]
    simp [annualReturnOf, pricesOf]

unseal Rat.add Rat.mul Rat.inv Rat.sub in
/-- Witness for C10 at prices `[100, 110]`. -/
theorem two_price_record_witness :
    ((0 : ℚ) < 100) ∧ ((0 : ℚ) < 110) ∧
      (metricsOf [((0 : ℤ), (100 : ℚ)), (1, 110)] none none 0).annual_vol =
        none ∧
      (metricsOf [((0 : ℤ), (100 : ℚ)), (1, 110)] none none 0).sharpe =
        none ∧
      (metricsOf [((0 : ℤ), (100 : ℚ)), (1, 110)] none none
          0).annual_return.isSome = true :=
  ⟨by decide, by decide,
    (two_price_record 0 1 100 110 (by decide) (by decide) none none 0).2.1,
    (two_price_record 0 1 100 110 (by decide) (by decide) none none
      0).2.2.1,
    (two_price_record 0 1 100 110 (by decide) (by decide) none none
      0).2.2.2⟩

end RiskCli
